import Mathlib

/-!
Verification development for the DynamicArray repository (`src/darray.h` and
the matrix demo). The repository ships only the header `darray.h`, which
declares a dynamic array of void pointers with an owning release callback; the
implementation translation unit is not among the sources, so the behaviour of
the operations is modelled from the specification (spec §3-§4) and each such
definition is marked `Modelled from the spec:`. The interface-level facts
(return types and `const` qualifiers of the callback typedefs) are translated
directly from `darray.h`.
-/

namespace DynamicArray

/-- Modelled from the spec: the implementation file defining `struct darray`
is missing from the sources, only the header declares it. Per spec §3 the
container state is `(buffer, length, capacity, release)`; here `items` is the
list of stored handles in index order (its length is the container length),
`capacity` the allocated slot count, and `item_free` an opaque identifier for
the release-callback function pointer set at construction or via
`darray_set_item_free`. -/
structure darray (α : Type) where
  items : List α
  capacity : Nat
  item_free : Nat
deriving Repr, DecidableEq

/-- Modelled from the spec: the C functions mutate the container through a
pointer and return an `int` status (0 on success, nonzero on failure, spec §7).
`arr` is the container state after the call and `released` the sequence of
handles on which the release callback was invoked, in invocation order. -/
structure DResult (α : Type) where
  status : Int
  arr : darray α
  released : List α
deriving Repr, DecidableEq

/-- Modelled from the spec (§4.1): before an insertion that would exceed the
capacity, the buffer is grown to a strictly larger capacity
(amortized-doubling, and at least the needed slot count). -/
def ensure_capacity (needed cap : Nat) : Nat :=
  if needed ≤ cap then cap else max needed (2 * cap)

/-- Modelled from the spec (§4.1): `new(release)` returns an empty container,
capacity may start at zero. -/
def new_darray (α : Type) (item_free : Nat) : darray α :=
  ⟨[], 0, item_free⟩

/-- Modelled from the spec (§3): the release callback is replaceable later. -/
def darray_set_item_free (d : darray α) (fp : Nat) : DResult α :=
  ⟨0, { d with item_free := fp }, []⟩

/-- Modelled from the spec (§4.1): O(1) length query. -/
def darray_len (d : darray α) : Nat :=
  d.items.length

/-- Modelled from the spec (§4.1): `get(index)` returns the handle at `index`
and fails (here: `none`) when `index >= length`. -/
def darray_get (d : darray α) (index : Nat) : Option α :=
  d.items.get? index

/-- Modelled from the spec (§4.2): `insert(index, item)` is valid for `index`
in `[0, length]`, shifts the handles at `[index, length)` one slot toward the
tail, places `item` at `index`; fails with an index error when
`index > length`, leaving the container unchanged. -/
def darray_insert (d : darray α) (index : Nat) (itemp : α) : DResult α :=
  if index ≤ d.items.length then
    ⟨0, ⟨d.items.take index ++ itemp :: d.items.drop index,
         ensure_capacity (d.items.length + 1) d.capacity, d.item_free⟩, []⟩
  else
    ⟨-1, d, []⟩

/-- Modelled from the spec (§4.2): `append(item)` is `insert(length, item)`. -/
def darray_append (d : darray α) (itemp : α) : DResult α :=
  darray_insert d d.items.length itemp

/-- Modelled from the spec (§4.2): `pop(index)` is valid for `index` in
`[0, length)`, releases the handle at `index` and shifts `[index+1, length)`
one slot toward the head; fails with an index error when `index >= length`. -/
def darray_pop (d : darray α) (index : Nat) : DResult α :=
  if h : index < d.items.length then
    ⟨0, ⟨d.items.take index ++ d.items.drop (index + 1), d.capacity, d.item_free⟩,
     [d.items.get ⟨index, h⟩]⟩
  else
    ⟨-1, d, []⟩

/-- Modelled from the spec (§4.2): `pop_range(start, end)` is valid for
`0 <= start <= end <= length`; it releases every handle in `[start, end)` in
ascending index order and shifts the remainder left by `end - start`; fails
with a range error when the precondition is violated, leaving the container
unchanged. -/
def darray_pop_range (d : darray α) (start stop : Nat) : DResult α :=
  if start ≤ stop ∧ stop ≤ d.items.length then
    ⟨0, ⟨d.items.take start ++ d.items.drop stop, d.capacity, d.item_free⟩,
     (d.items.drop start).take (stop - start)⟩
  else
    ⟨-1, d, []⟩

/-- Modelled from the spec (§4.2): `clear()` is `pop_range(0, length)` and
retains the allocated capacity. -/
def darray_clear (d : darray α) : DResult α :=
  darray_pop_range d 0 d.items.length

/-- Modelled from the spec (§4.2): `destroy()` is `clear()` followed by
freeing the backing buffer and the container state; its observable effect in
this model is the sequence of handles the release callback is invoked on. -/
def del_darray (d : darray α) : List α :=
  (darray_clear d).released

/-- Modelled from the spec (§4.4): `extend_at(index, other)` inserts every
handle of `other`, in `other`'s original order, starting at `index` of the
target, shifting the target's tail right; fails when `index > length`. -/
def darray_extend_at (d1 : darray α) (index : Nat) (d2 : darray α) : DResult α :=
  if index ≤ d1.items.length then
    ⟨0, ⟨d1.items.take index ++ d2.items ++ d1.items.drop index,
         ensure_capacity (d1.items.length + d2.items.length) d1.capacity,
         d1.item_free⟩, []⟩
  else
    ⟨-1, d1, []⟩

/-- Modelled from the spec (§4.4): `extend(other)` is `extend_at(length, other)`. -/
def darray_extend (d1 d2 : darray α) : DResult α :=
  darray_extend_at d1 d1.items.length d2

/-- Modelled from the spec (§4.4): `reverse()` reverses the handle order in
place. -/
def darray_reverse (d : darray α) : DResult α :=
  ⟨0, ⟨d.items.reverse, d.capacity, d.item_free⟩, []⟩

/-- Modelled from the spec (§4.4): helper for the single left-to-right
dedup pass. Given the immediately preceding retained handle `prev` and the
remaining handles, returns the retained tail and the released handles in
order: a handle comparing equal (0) to the preceding retained handle is
released and dropped, otherwise it is retained and becomes the new `prev`. -/
def unique_go (fp : α → α → Int) : α → List α → List α × List α
  | _, [] => ([], [])
  | prev, x :: xs =>
    if fp prev x = 0 then
      let r := unique_go fp prev xs
      (r.1, x :: r.2)
    else
      let r := unique_go fp x xs
      (x :: r.1, r.2)

/-- Modelled from the spec (§4.4): `unique(compare)` removes consecutive
duplicate runs in one pass, keeping the first handle of each run. -/
def darray_unique (d : darray α) (fp : α → α → Int) : DResult α :=
  match d.items with
  | [] => ⟨0, d, []⟩
  | x :: xs =>
    let r := unique_go fp x xs
    ⟨0, ⟨x :: r.1, d.capacity, d.item_free⟩, r.2⟩

/-- Modelled from the spec (§4.4): quicksort with a three-way comparator,
written with explicit structural fuel (the list length bounds the recursion
depth through the partition steps, since each partition is a sublist of the
tail). -/
def qsortF (fp : α → α → Int) : Nat → List α → List α
  | _, [] => []
  | 0, l => l
  | fuel + 1, x :: xs =>
    qsortF fp fuel (xs.filter fun y => decide (fp y x < 0)) ++
      x :: qsortF fp fuel (xs.filter fun y => !decide (fp y x < 0))

/-- Modelled from the spec (§4.4): quicksort of a whole list. -/
def qsort (fp : α → α → Int) (l : List α) : List α :=
  qsortF fp l.length l

/-- Modelled from the spec (§4.4): `sort(compare)` sorts the handles in place
with quicksort; no handle is released. -/
def darray_sort (d : darray α) (fp : α → α → Int) : DResult α :=
  ⟨0, ⟨qsort fp d.items, d.capacity, d.item_free⟩, []⟩

/-- Modelled from the spec (§4.4): `clone(copy)` produces a new container of
equal length whose release callback matches the source's, holding at index `i`
the handle returned by `copy` on the source handle at `i`. -/
def darray_clone (d : darray α) (fp : α → α) : darray α :=
  ⟨d.items.map fp, ensure_capacity d.items.length 0, d.item_free⟩

/-! Interface-level model, translated directly from `src/darray.h`: the
declared operations, their C return types, and the `const` qualifiers of the
callback typedefs. The grouping into responsibility groups follows the table
of spec §2. -/

/-- The operations declared in `src/darray.h`. -/
inductive Op
  | new_darray | darray_set_item_free | darray_len | darray_foreach
  | darray_aggregate | darray_append | darray_get | darray_pop
  | darray_pop_range | darray_insert | darray_search | darray_extend_at
  | darray_extend | darray_reverse | darray_unique | darray_sort
  | darray_clone | darray_clear | del_darray
deriving DecidableEq, Repr, Fintype

/-- C return types occurring in `darray.h`. -/
inductive CRet
  | intStatus | voidRet | sizeRet | ptrRet | darrayPtr
deriving DecidableEq, Repr

/-- Return type of each operation, translated from its declaration in
`src/darray.h`. -/
def retType : Op → CRet
  | .new_darray => .darrayPtr
  | .darray_set_item_free => .intStatus
  | .darray_len => .sizeRet
  | .darray_foreach => .intStatus
  | .darray_aggregate => .voidRet
  | .darray_append => .intStatus
  | .darray_get => .ptrRet
  | .darray_pop => .intStatus
  | .darray_pop_range => .intStatus
  | .darray_insert => .intStatus
  | .darray_search => .intStatus
  | .darray_extend_at => .intStatus
  | .darray_extend => .intStatus
  | .darray_reverse => .intStatus
  | .darray_unique => .intStatus
  | .darray_sort => .intStatus
  | .darray_clone => .darrayPtr
  | .darray_clear => .intStatus
  | .del_darray => .voidRet

/-- Responsibility groups of spec §2. -/
inductive Group
  | storageGrowth | mutation | queryTraversal | structural | config
deriving DecidableEq, Repr

/-- Group of each operation per the spec §2 table: Mutation Operations are
append, indexed insert, indexed and ranged removal, clear, destroy; Query and
Traversal are length query, indexed get, foreach, aggregate, linear search;
Structural Algorithms are splice or extend, reverse, adjacent-dedup, sort,
deep clone. -/
def opGroup : Op → Group
  | .new_darray => .storageGrowth
  | .darray_set_item_free => .config
  | .darray_len => .queryTraversal
  | .darray_foreach => .queryTraversal
  | .darray_aggregate => .queryTraversal
  | .darray_append => .mutation
  | .darray_get => .queryTraversal
  | .darray_pop => .mutation
  | .darray_pop_range => .mutation
  | .darray_insert => .mutation
  | .darray_search => .queryTraversal
  | .darray_extend_at => .structural
  | .darray_extend => .structural
  | .darray_reverse => .structural
  | .darray_unique => .structural
  | .darray_sort => .structural
  | .darray_clone => .structural
  | .darray_clear => .mutation
  | .del_darray => .mutation

/-- Whether an operation belongs to the traversal or mutation groups. -/
def isTraversalOrMutation (op : Op) : Bool :=
  decide (opGroup op = Group.mutation ∨ opGroup op = Group.queryTraversal)

/-- The callback typedefs of `darray.h`. -/
inductive CallbackTy
  | consumerTy | aggregateTy | comparatorTy | unaryTy
deriving DecidableEq, Repr, Fintype

/-- Whether the parameter through which a stored item is passed to the
callback is `const`-qualified, translated from the typedefs in `darray.h`:
`consumer` is `void (*)(void *)`, `aggregate` is `void (*)(const void *,
void *)` (first argument is the stored item), `comparator` is
`int (*)(const void *, const void *)`, and `unary` is
`void *(*)(const void *)`. -/
def itemParamConst : CallbackTy → Bool
  | .consumerTy => false
  | .aggregateTy => true
  | .comparatorTy => true
  | .unaryTy => true

/-- The callback type through which each operation touches stored items, per
the declarations in `darray.h` (`none` for operations taking no callback). -/
def callbackOf : Op → Option CallbackTy
  | .new_darray => some .consumerTy
  | .darray_set_item_free => some .consumerTy
  | .darray_foreach => some .consumerTy
  | .darray_aggregate => some .aggregateTy
  | .darray_search => some .comparatorTy
  | .darray_unique => some .comparatorTy
  | .darray_sort => some .comparatorTy
  | .darray_clone => some .unaryTy
  | _ => none


/-! Theorems. -/

/-- C1: for every container and release callback, `darray_clear` and
`del_darray` invoke the release callback exactly once per contained handle —
the released sequence is exactly the stored sequence, so no handle is skipped
and none is released twice — and afterwards the length is 0; `clear` retains
the capacity and the callback, and `destroy` releases the same handles before
freeing the state. -/
theorem clear_destroy_release_each_once (α : Type) (d : darray α) :
    (darray_clear d).status = 0 ∧
    (darray_clear d).released = d.items ∧
    (darray_clear d).arr.items = [] ∧
    (darray_clear d).arr.capacity = d.capacity ∧
    (darray_clear d).arr.item_free = d.item_free ∧
    del_darray d = d.items := by
  simp [darray_clear, darray_pop_range, del_darray]

/-- C2: for `0 <= start <= end <= length`, `darray_pop_range` succeeds,
releases exactly the handles of `[start, end)` in ascending index order,
leaves the sequence `h_0..h_{start-1}, h_end..h_{n-1}` of length
`n - (end - start)`, and is a no-op when `start = end`. -/
theorem pop_range_valid_spec (α : Type) (d : darray α) (s e : Nat)
    (h1 : s ≤ e) (h2 : e ≤ d.items.length) :
    (darray_pop_range d s e).status = 0 ∧
    (darray_pop_range d s e).arr.items = d.items.take s ++ d.items.drop e ∧
    (darray_pop_range d s e).released = (d.items.take e).drop s ∧
    (darray_pop_range d s e).arr.items.length = d.items.length - (e - s) ∧
    (darray_pop_range d s e).arr.capacity = d.capacity ∧
    (s = e → (darray_pop_range d s e).arr = d ∧ (darray_pop_range d s e).released = []) := by
  have hc : s ≤ e ∧ e ≤ d.items.length := ⟨h1, h2⟩
  refine ⟨?_, ?_, ?_, ?_, ?_, ?_⟩
  · simp [darray_pop_range, hc]
  · simp [darray_pop_range, hc]
  · simp only [darray_pop_range, if_pos hc]
    rw [List.drop_take]
  · simp [darray_pop_range, hc, List.length_take, List.length_drop]
    omega
  · simp [darray_pop_range, hc]
  · intro hse
    subst hse
    refine ⟨?_, by simp [darray_pop_range, hc]⟩
    have h2' : s ≤ d.items.length := hc.2
    cases d with
    | mk it cap fp => simp [darray_pop_range, h2', List.take_append_drop]

/-- C2 witness: on `[1, 2, 3]`, `pop_range(0, 2)` succeeds, leaves `[3]` with
length 1, and releases exactly `1` then `2`. -/
theorem pop_range_valid_spec_witness :
    (darray_pop_range (darray.mk [1, 2, 3] 3 0 : darray Int) 0 2).status = 0 ∧
    (darray_pop_range (darray.mk [1, 2, 3] 3 0 : darray Int) 0 2).arr.items = [3] ∧
    (darray_pop_range (darray.mk [1, 2, 3] 3 0 : darray Int) 0 2).released = [1, 2] ∧
    (darray_pop_range (darray.mk [1, 2, 3] 3 0 : darray Int) 0 2).arr.items.length = 1 := by
  have h := pop_range_valid_spec Int (darray.mk [1, 2, 3] 3 0) 0 2 (by decide) (by decide)
  exact ⟨h.1, h.2.1.trans (by decide), h.2.2.1.trans (by decide), h.2.2.2.1.trans (by decide)⟩

/-- C3: `pop` with an index at or past the length, `insert` with an index past
the length, and `pop_range` with an inverted or out-of-bounds range each
return failure status `-1`, leave the container (sequence, length, capacity,
callback) exactly unchanged, and fire no release callback. -/
theorem invalid_args_leave_unchanged (α : Type) (d : darray α) :
    (∀ i, d.items.length ≤ i → darray_pop d i = ⟨-1, d, []⟩) ∧
    (∀ i x, d.items.length < i → darray_insert d i x = ⟨-1, d, []⟩) ∧
    (∀ s e, e < s ∨ d.items.length < e → darray_pop_range d s e = ⟨-1, d, []⟩) := by
  refine ⟨fun i hi => ?_, fun i x hi => ?_, fun s e he => ?_⟩
  · unfold darray_pop
    rw [dif_neg]
    omega
  · unfold darray_insert
    rw [if_neg]
    omega
  · unfold darray_pop_range
    rw [if_neg]
    omega

/-- C3 witness: on the container `[1, 2]`, `pop 5`, `insert 7`, and
`pop_range 2 1` each fail and leave the container unchanged with no release. -/
theorem invalid_args_leave_unchanged_witness :
    darray_pop (darray.mk [1, 2] 2 0 : darray Int) 5 = ⟨-1, darray.mk [1, 2] 2 0, []⟩ ∧
    darray_insert (darray.mk [1, 2] 2 0 : darray Int) 7 9 = ⟨-1, darray.mk [1, 2] 2 0, []⟩ ∧
    darray_pop_range (darray.mk [1, 2] 2 0 : darray Int) 2 1 = ⟨-1, darray.mk [1, 2] 2 0, []⟩ := by
  have h := invalid_args_leave_unchanged Int (darray.mk [1, 2] 2 0)
  exact ⟨h.1 5 (by decide), h.2.1 7 9 (by decide), h.2.2 2 1 (Or.inl (by decide))⟩

/-- C4: after a successful `append(x)` on a container of length `n`, the
length is `n + 1`, `get n` returns exactly `x`, and `get i` for every `i < n`
returns the same handle as before. -/
theorem append_spec (α : Type) (d : darray α) (x : α) :
    (darray_append d x).status = 0 ∧
    darray_len (darray_append d x).arr = darray_len d + 1 ∧
    darray_get (darray_append d x).arr (darray_len d) = some x ∧
    (∀ i, i < darray_len d → darray_get (darray_append d x).arr i = darray_get d i) := by
  have harr : (darray_append d x).arr.items = d.items ++ [x] := by
    simp [darray_append, darray_insert, List.take_length, List.drop_length]
  refine ⟨?_, ?_, ?_, ?_⟩
  · simp [darray_append, darray_insert]
  · simp [darray_len, harr]
  · simp only [darray_get, harr, darray_len]
    exact List.get?_concat_length d.items x
  · intro i hi
    simp only [darray_get, harr]
    exact List.get?_append hi

/-- C4 witness: appending `20` to `[10]` succeeds, the length becomes 2,
`get 1` is `20`, and `get 0` is still `10`. -/
theorem append_spec_witness :
    (darray_append (darray.mk [10] 1 0 : darray Int) 20).status = 0 ∧
    darray_len (darray_append (darray.mk [10] 1 0 : darray Int) 20).arr = 2 ∧
    darray_get (darray_append (darray.mk [10] 1 0 : darray Int) 20).arr 1 = some 20 ∧
    darray_get (darray_append (darray.mk [10] 1 0 : darray Int) 20).arr 0 = some 10 := by
  have h := append_spec Int (darray.mk [10] 1 0) 20
  exact ⟨h.1, h.2.1, h.2.2.1, (h.2.2.2 0 (by decide)).trans (by decide)⟩

/-- Helper for C5: the retained list of the dedup pass, prefixed with the
preceding retained handle, never has two adjacent handles comparing equal. -/
theorem unique_go_chain (fp : α → α → Int) (xs : List α) :
    ∀ prev, List.Chain' (fun a b => fp a b ≠ 0) (prev :: (unique_go fp prev xs).1) := by
  induction xs with
  | nil => intro prev; simp [unique_go]
  | cons x xs ih =>
    intro prev
    by_cases h : fp prev x = 0
    · simpa [unique_go, h] using ih prev
    · simp only [unique_go, if_neg h]
      rw [List.chain'_cons]
      exact ⟨h, ih x⟩

/-- Helper for C5: every handle is either retained or released, so the
retained and released counts sum to the input count. -/
theorem unique_go_len (fp : α → α → Int) (xs : List α) :
    ∀ prev, (unique_go fp prev xs).1.length + (unique_go fp prev xs).2.length = xs.length := by
  induction xs with
  | nil => intro prev; simp [unique_go]
  | cons x xs ih =>
    intro prev
    by_cases h : fp prev x = 0 <;> simp [unique_go, h] <;>
      [have := ih prev; have := ih x] <;> omega

/-- Helper for C5: the retained handles form a sublist of the input, so the
pass preserves the relative order of what it keeps. -/
theorem unique_go_sublist (fp : α → α → Int) (xs : List α) :
    ∀ prev, (unique_go fp prev xs).1.Sublist xs := by
  induction xs with
  | nil => intro prev; simp [unique_go]
  | cons x xs ih =>
    intro prev
    by_cases h : fp prev x = 0
    · simp only [unique_go, if_pos h]
      exact (ih prev).cons x
    · simp only [unique_go, if_neg h]
      exact (ih x).cons₂ x

/-- C5: `unique(compare)` is a single left-to-right pass that keeps the first
handle of each run (the head is preserved), retains handles in their original
order (sublist), drops a handle exactly when it compares equal to the
immediately preceding retained one (no two adjacent handles of the result
compare equal, and retained plus released counts sum to the length); on
`[1, 1, 2, 1]` with equality-by-value compare the result is `[1, 2, 1]` with
the trailing 1 surviving, releasing only the duplicate `1`. -/
theorem unique_spec :
    (∀ (α : Type) (d : darray α) (fp : α → α → Int),
      (darray_unique d fp).status = 0 ∧
      (darray_unique d fp).arr.items.head? = d.items.head? ∧
      (darray_unique d fp).arr.items.length + (darray_unique d fp).released.length
        = d.items.length ∧
      (darray_unique d fp).arr.items.Sublist d.items ∧
      List.Chain' (fun a b => fp a b ≠ 0) (darray_unique d fp).arr.items) ∧
    (darray_unique (darray.mk [1, 1, 2, 1] 4 0 : darray Int) (fun a b => a - b)).arr.items
      = [1, 2, 1] ∧
    (darray_unique (darray.mk [1, 1, 2, 1] 4 0 : darray Int) (fun a b => a - b)).released
      = [1] := by
  refine ⟨?_, by decide, by decide⟩
  intro α d fp
  rcases d with ⟨items, cap, ifr⟩
  cases items with
  | nil => simp [darray_unique]
  | cons x xs =>
    refine ⟨rfl, rfl, ?_, ?_, ?_⟩
    · have := unique_go_len fp xs x
      simp only [darray_unique, List.length_cons]
      omega
    · exact (unique_go_sublist fp xs x).cons₂ x
    · exact unique_go_chain fp xs x

/-- C7: `clone(copy)` yields a container of the same length, with the same
release callback, whose handle at each index `i` is `copy` of the source
handle at `i`; and when `copy` returns referents outside the source's handles
(fresh allocations), the clone's handle at every index differs from the
source's handle there. -/
theorem clone_spec (α : Type) (d : darray α) (fp : α → α) :
    darray_len (darray_clone d fp) = darray_len d ∧
    (darray_clone d fp).item_free = d.item_free ∧
    (∀ i a, darray_get d i = some a → darray_get (darray_clone d fp) i = some (fp a)) ∧
    (∀ i a b, (∀ c, c ∈ d.items → fp c ∉ d.items) →
      darray_get (darray_clone d fp) i = some a → darray_get d i = some b → a ≠ b) := by
  refine ⟨by simp [darray_len, darray_clone], rfl, ?_, ?_⟩
  · intro i a h
    simp only [darray_get] at h
    show (d.items.map fp).get? i = some (fp a)
    rw [List.get?_map, h]
    rfl
  · intro i a b hfresh ha hb
    simp only [darray_get] at hb
    have hbmem : b ∈ d.items := List.get?_mem hb
    have hfb : a = fp b := by
      simp only [darray_get, darray_clone, List.get?_map, hb] at ha
      simp only [Option.map_some'] at ha
      exact (Option.some.inj ha).symm
    intro hcontra
    refine hfresh b hbmem ?_
    rw [← hfb, hcontra]
    exact hbmem

/-- C7 witness: cloning `[1, 2]` (callback id 7) with `copy = (· + 10)` gives
length 2, the same callback, `11` at index 0, and `11 ≠ 1`. -/
theorem clone_spec_witness :
    darray_len (darray_clone (darray.mk [1, 2] 2 7 : darray Int) (fun a => a + 10)) = 2 ∧
    (darray_clone (darray.mk [1, 2] 2 7 : darray Int) (fun a => a + 10)).item_free = 7 ∧
    darray_get (darray_clone (darray.mk [1, 2] 2 7 : darray Int) (fun a => a + 10)) 0
      = some 11 ∧
    (11 : Int) ≠ 1 := by
  have h := clone_spec Int (darray.mk [1, 2] 2 7) (fun a => a + 10)
  refine ⟨h.1, h.2.1, ?_, ?_⟩
  · exact (h.2.2.1 0 1 (by decide)).trans (by decide)
  · exact h.2.2.2 0 11 1 (by decide) (by decide) (by decide)

/-- C8: for `index ≤ length`, `extend_at(index, other)` succeeds and splices
all of `other`'s handles, in their order, at `index`, shifting the target's
tail right; `extend` appends all of `other`'s handles after the target's
original handles, and the resulting length is the sum of the lengths. -/
theorem extend_spec (α : Type) (d1 d2 : darray α) (i : Nat) (hi : i ≤ d1.items.length) :
    (darray_extend_at d1 i d2).status = 0 ∧
    (darray_extend_at d1 i d2).arr.items
      = d1.items.take i ++ d2.items ++ d1.items.drop i ∧
    (darray_extend d1 d2).status = 0 ∧
    (darray_extend d1 d2).arr.items = d1.items ++ d2.items ∧
    darray_len (darray_extend d1 d2).arr = darray_len d1 + darray_len d2 := by
  refine ⟨?_, ?_, ?_, ?_, ?_⟩ <;>
    simp [darray_extend, darray_extend_at, hi, darray_len,
      List.take_length, List.drop_length]

/-- C8 witness: splicing `[8, 9]` into `[1, 2]` at index 1 gives
`[1, 8, 9, 2]`; extending `[1, 2]` by `[8, 9]` gives `[1, 2, 8, 9]` of
length 4. -/
theorem extend_spec_witness :
    (darray_extend_at (darray.mk [1, 2] 2 0 : darray Int) 1 (darray.mk [8, 9] 2 0)).arr.items
      = [1, 8, 9, 2] ∧
    (darray_extend (darray.mk [1, 2] 2 0 : darray Int) (darray.mk [8, 9] 2 0)).arr.items
      = [1, 2, 8, 9] ∧
    darray_len (darray_extend (darray.mk [1, 2] 2 0 : darray Int)
      (darray.mk [8, 9] 2 0)).arr = 4 := by
  have h := extend_spec Int (darray.mk [1, 2] 2 0) (darray.mk [8, 9] 2 0) 1 (by decide)
  exact ⟨h.2.1.trans (by decide), h.2.2.2.1.trans (by decide), h.2.2.2.2.trans (by decide)⟩

/-- C9 counterexample: `del_darray` (the destroy operation, a mutation
operation per the spec §2 grouping) is declared in `darray.h` with return type
`void`, so `darray_aggregate` is not the only traversal-or-mutation operation
with no return value. -/
theorem aggregate_not_only_void_op :
    isTraversalOrMutation Op.del_darray = true ∧
    retType Op.del_darray = CRet.voidRet ∧
    Op.del_darray ≠ Op.darray_aggregate ∧
    ¬ (∀ op : Op, isTraversalOrMutation op = true → retType op = CRet.voidRet →
        op = Op.darray_aggregate) := by decide

/-- C9 (amended): `darray_aggregate` and `del_darray` are exactly the
traversal-or-mutation operations of `darray.h` declared with no return value
(and hence with no status code through which to report failure), while
`darray_foreach`, `darray_append`, `darray_pop`, `darray_insert`,
`darray_pop_range` and `darray_clear` each return an int status. -/
theorem void_traversal_mutation_ops :
    (∀ op : Op,
      (isTraversalOrMutation op = true ∧ retType op = CRet.voidRet)
        ↔ (op = Op.darray_aggregate ∨ op = Op.del_darray)) ∧
    retType Op.darray_foreach = CRet.intStatus ∧
    retType Op.darray_append = CRet.intStatus ∧
    retType Op.darray_pop = CRet.intStatus ∧
    retType Op.darray_insert = CRet.intStatus ∧
    retType Op.darray_pop_range = CRet.intStatus ∧
    retType Op.darray_clear = CRet.intStatus := by decide

/-- C10: aggregate, search, sort, unique and clone touch stored items only
through callback types whose item parameter is `const`-qualified
(`aggregate`'s first argument, `comparator`'s both arguments, `unary`'s
argument), so they cannot mutate a stored handle's referent through the
supplied callback; the `consumer` type — used by `darray_foreach` and by the
release callback of `new_darray` / `darray_set_item_free` — is the only
callback type of the header receiving a mutable item pointer. -/
theorem const_item_callback_ops :
    callbackOf Op.darray_aggregate = some CallbackTy.aggregateTy ∧
    callbackOf Op.darray_search = some CallbackTy.comparatorTy ∧
    callbackOf Op.darray_sort = some CallbackTy.comparatorTy ∧
    callbackOf Op.darray_unique = some CallbackTy.comparatorTy ∧
    callbackOf Op.darray_clone = some CallbackTy.unaryTy ∧
    itemParamConst CallbackTy.aggregateTy = true ∧
    itemParamConst CallbackTy.comparatorTy = true ∧
    itemParamConst CallbackTy.unaryTy = true ∧
    callbackOf Op.darray_foreach = some CallbackTy.consumerTy ∧
    callbackOf Op.new_darray = some CallbackTy.consumerTy ∧
    callbackOf Op.darray_set_item_free = some CallbackTy.consumerTy ∧
    itemParamConst CallbackTy.consumerTy = false ∧
    (∀ ty : CallbackTy, itemParamConst ty = false ↔ ty = CallbackTy.consumerTy) := by decide

/-- Helper for C6: with fuel at least the list length, the fuelled quicksort
returns a permutation of its input. -/
theorem qsortF_perm (fp : α → α → Int) :
    ∀ (fuel : Nat) (l : List α), l.length ≤ fuel → List.Perm (qsortF fp fuel l) l := by
  intro fuel
  induction fuel with
  | zero =>
    intro l h
    have hl : l = [] := List.eq_nil_of_length_eq_zero (Nat.le_zero.mp h)
    subst hl
    simp [qsortF]
  | succ fuel ih =>
    intro l h
    cases l with
    | nil => simp [qsortF]
    | cons x xs =>
      have hlen : xs.length ≤ fuel := Nat.le_of_succ_le_succ h
      have pA := ih (xs.filter fun y => decide (fp y x < 0))
        (le_trans (List.length_filter_le _ _) hlen)
      have pB := ih (xs.filter fun y => !decide (fp y x < 0))
        (le_trans (List.length_filter_le _ _) hlen)
      simp only [qsortF]
      exact ((pA.append (pB.cons x)).trans List.perm_middle).trans
        ((List.filter_append_perm (fun y => decide (fp y x < 0)) xs).cons x)

/-- Helper for C6: quicksort returns a permutation of its input. -/
theorem qsort_perm (fp : α → α → Int) (l : List α) : List.Perm (qsort fp l) l :=
  qsortF_perm fp l.length l le_rfl

/-- Helper for C6: when the comparator flips sign under argument swap and its
nonpositive relation is transitive, the fuelled quicksort output is pairwise
nonpositive under the comparator. -/
theorem qsortF_pairwise (fp : α → α → Int)
    (hflip : ∀ a b, 0 ≤ fp a b → fp b a ≤ 0)
    (htrans : ∀ a b c, fp a b ≤ 0 → fp b c ≤ 0 → fp a c ≤ 0) :
    ∀ (fuel : Nat) (l : List α), l.length ≤ fuel →
      List.Pairwise (fun a b => fp a b ≤ 0) (qsortF fp fuel l) := by
  intro fuel
  induction fuel with
  | zero =>
    intro l h
    have hl : l = [] := List.eq_nil_of_length_eq_zero (Nat.le_zero.mp h)
    subst hl
    simp [qsortF]
  | succ fuel ih =>
    intro l h
    cases l with
    | nil => simp [qsortF]
    | cons x xs =>
      have hlen : xs.length ≤ fuel := Nat.le_of_succ_le_succ h
      have hA := ih (xs.filter fun y => decide (fp y x < 0))
        (le_trans (List.length_filter_le _ _) hlen)
      have hB := ih (xs.filter fun y => !decide (fp y x < 0))
        (le_trans (List.length_filter_le _ _) hlen)
      have memA : ∀ a ∈ qsortF fp fuel (xs.filter fun y => decide (fp y x < 0)),
          fp a x < 0 := by
        intro a ha
        have hmem := (qsortF_perm fp fuel _
          (le_trans (List.length_filter_le _ _) hlen)).subset ha
        exact of_decide_eq_true (List.mem_filter.mp hmem).2
      have memB : ∀ b ∈ qsortF fp fuel (xs.filter fun y => !decide (fp y x < 0)),
          fp x b ≤ 0 := by
        intro b hb
        have hmem := (qsortF_perm fp fuel _
          (le_trans (List.length_filter_le _ _) hlen)).subset hb
        have hnb : ¬ (fp b x < 0) := by
          have h2 := (List.mem_filter.mp hmem).2
          simpa using h2
        exact hflip b x (by omega)
      simp only [qsortF]
      rw [List.pairwise_append]
      refine ⟨hA, ?_, ?_⟩
      · rw [List.pairwise_cons]
        exact ⟨memB, hB⟩
      · intro a ha b hb
        have hax : fp a x ≤ 0 := le_of_lt (memA a ha)
        rcases List.mem_cons.mp hb with rfl | hb'
        · exact hax
        · exact htrans a x b hax (memB b hb')

/-- C6: for a three-way comparator (sign-flipping under argument swap and
transitive in its nonpositive relation, as the comparator contract of
`darray.h` requires), a successful `sort(compare)` keeps a permutation of the
original handles, preserves the length, and orders them so that
`compare(get(i), get(j)) <= 0` for all `i < j`. -/
theorem sort_spec (α : Type) (d : darray α) (fp : α → α → Int)
    (hflip : ∀ a b, 0 ≤ fp a b → fp b a ≤ 0)
    (htrans : ∀ a b c, fp a b ≤ 0 → fp b c ≤ 0 → fp a c ≤ 0) :
    (darray_sort d fp).status = 0 ∧
    List.Perm (darray_sort d fp).arr.items d.items ∧
    darray_len (darray_sort d fp).arr = darray_len d ∧
    (∀ i j a b, i < j →
      darray_get (darray_sort d fp).arr i = some a →
      darray_get (darray_sort d fp).arr j = some b →
      fp a b ≤ 0) := by
  have hperm : List.Perm (qsort fp d.items) d.items := qsort_perm fp d.items
  have hpw : List.Pairwise (fun a b => fp a b ≤ 0) (qsort fp d.items) :=
    qsortF_pairwise fp hflip htrans d.items.length d.items le_rfl
  refine ⟨rfl, hperm, ?_, ?_⟩
  · simp only [darray_len, darray_sort]
    exact hperm.length_eq
  · intro i j a b hij ha hb
    have ha' : (qsort fp d.items).get? i = some a := ha
    have hb' : (qsort fp d.items).get? j = some b := hb
    obtain ⟨hi, hga⟩ := List.get?_eq_some.mp ha'
    obtain ⟨hj, hgb⟩ := List.get?_eq_some.mp hb'
    have hr := List.pairwise_iff_get.mp hpw ⟨i, hi⟩ ⟨j, hj⟩ (Fin.mk_lt_mk.mpr hij)
    rw [hga, hgb] at hr
    exact hr

/-- C6 witness: sorting `[3, 1, 2]` with the subtraction comparator succeeds,
yields a permutation of the input, and the handles read back at indices 0 and
1 compare nonpositively. -/
theorem sort_spec_witness :
    (darray_sort (darray.mk [3, 1, 2] 4 0 : darray Int) (fun a b => a - b)).status = 0 ∧
    List.Perm (darray_sort (darray.mk [3, 1, 2] 4 0 : darray Int)
      (fun a b => a - b)).arr.items [3, 1, 2] ∧
    (1 : Int) - 2 ≤ 0 := by
  have h := sort_spec Int (darray.mk [3, 1, 2] 4 0) (fun a b => a - b)
    (fun a b hab => by
      have h1 : (0 : Int) ≤ a - b := hab
      show b - a ≤ 0
      omega)
    (fun a b c h1 h2 => by
      have g1 : a - b ≤ 0 := h1
      have g2 : b - c ≤ 0 := h2
      show a - c ≤ 0
      omega)
  exact ⟨h.1, h.2.1, h.2.2.2 0 1 1 2 (by decide) (by decide) (by decide)⟩

end DynamicArray
